import Mathlib

/-!
Verification of the Othello engine (board model, game session, AI search)
against its specification.  The Go source is shallowly embedded: the 8x8
grid is a total function on `Int` coordinates (Go `int`), guarded reads go
through `IsValidPosition` exactly as in the source, mutation becomes
functional record update, and the two bounded scanning loops (legality
scan and flip collection) are embedded with a fuel of 8, which exceeds the
longest possible in-board ray on an 8x8 board.  Every board the program
constructs has size 8 (`NewBoard` is the only constructor and `Clone`
preserves the size), so the `Size` field is fixed to 8 in the embedding.
-/

namespace Othello

/-- The piece enumeration from `pkg/model/board.go`. -/
inductive Piece where
  | Empty : Piece
  | Black : Piece
  | White : Piece
deriving DecidableEq, Repr

/-- `Position` from `pkg/model/board.go`: a (row, col) integer pair. -/
structure Position where
  Row : Int
  Col : Int
deriving DecidableEq, Repr

/-- The eight scan directions (`Directions` in `pkg/model/board.go`),
in source order; a pair is (DRow, DCol). -/
def Directions : List (Int × Int) :=
  [(-1, -1), (-1, 0), (-1, 1), (0, -1), (0, 1), (1, -1), (1, 0), (1, 1)]

/-- The board from `pkg/model/board.go`.  The grid is total on `Int`
coordinates; only cells with both coordinates in `[0, 8)` are ever read,
because every access in the source is guarded by `IsValidPosition`. -/
structure Board where
  Cells : Int → Int → Piece
  CurrentPlayer : Piece
  BlackCnt : Int
  WhiteCnt : Int

/-- Functional update of one grid cell (`b.Cells[r][c] = v` in Go). -/
def updateCell (cells : Int → Int → Piece) (p : Int × Int) (v : Piece) :
    Int → Int → Piece :=
  fun r c => if r = p.1 ∧ c = p.2 then v else cells r c

/-- `NewBoard`: all cells empty, then the four centre pieces are set. -/
def NewBoard : Board :=
  { Cells :=
      updateCell
        (updateCell
          (updateCell
            (updateCell (fun _ _ => Piece.Empty) (3, 3) Piece.White)
            (3, 4) Piece.Black)
          (4, 3) Piece.Black)
        (4, 4) Piece.White
    CurrentPlayer := Piece.Black
    BlackCnt := 2
    WhiteCnt := 2 }

/-- `Board.IsValidPosition`: both coordinates in `[0, 8)` (Size is 8). -/
def Board.IsValidPosition (_b : Board) (row col : Int) : Bool :=
  decide (0 ≤ row ∧ row < 8 ∧ 0 ≤ col ∧ col < 8)

/-- `Board.GetPiece`: guarded read, `Empty` off the board. -/
def Board.GetPiece (b : Board) (row col : Int) : Piece :=
  if b.IsValidPosition row col then b.Cells row col else Piece.Empty

/-- `Board.getOpponent`. -/
def Board.getOpponent (b : Board) : Piece :=
  if b.CurrentPlayer = Piece.Black then Piece.White else Piece.Black

/-- The inner `for b.IsValidPosition(r, c)` loop of `Board.IsValidMove`:
keep walking in direction (dr, dc) over opponent pieces; `true` on the
current player's piece, `false` on an empty cell or the board edge.
Fuel 8 strictly exceeds the number of loop iterations possible on an
8x8 board (a ray from an in-board origin leaves the board within 8
steps in any non-zero direction). -/
def Board.scanDir (b : Board) (dr dc : Int) : Nat → Int → Int → Bool
  | 0, _, _ => false
  | fuel + 1, r, c =>
    if b.IsValidPosition r c then
      if b.Cells r c = b.CurrentPlayer then true
      else if b.Cells r c = Piece.Empty then false
      else b.scanDir dr dc fuel (r + dr) (c + dc)
    else false

/-- `Board.IsValidMove` from `pkg/model/board.go`. -/
def Board.IsValidMove (b : Board) (row col : Int) : Bool :=
  if ¬ (b.IsValidPosition row col = true) ∨ b.Cells row col ≠ Piece.Empty then
    false
  else
    Directions.any fun d =>
      let r := row + d.1
      let c := col + d.2
      if ¬ (b.IsValidPosition r c = true) ∨ b.Cells r c ≠ b.getOpponent then
        false
      else
        b.scanDir d.1 d.2 8 (r + d.1) (c + d.2)

/-- `Board.GetValidMoves`: row-major scan collecting the valid moves. -/
def Board.GetValidMoves (b : Board) : List Position :=
  ((List.range 8).flatMap fun i =>
      (List.range 8).map fun j => Position.mk (i : Int) (j : Int)).filter
    fun pos => b.IsValidMove pos.Row pos.Col

/-- `Board.HasValidMove`. -/
def Board.HasValidMove (b : Board) : Bool :=
  decide (0 < b.GetValidMoves.length)

/-- The collection loop of `Board.flipPieces` for one direction: walk from
(r, c) in direction (dr, dc), returning the run of cells that are neither
empty nor the current player's, plus the `foundOwn` flag (true when the
walk ended on the current player's piece). -/
def Board.collectRun (b : Board) (dr dc : Int) :
    Nat → Int → Int → List (Int × Int) × Bool
  | 0, _, _ => ([], false)
  | fuel + 1, r, c =>
    if b.IsValidPosition r c then
      if b.Cells r c = Piece.Empty then ([], false)
      else if b.Cells r c = b.CurrentPlayer then ([], true)
      else
        let rest := b.collectRun dr dc fuel (r + dr) (c + dc)
        ((r, c) :: rest.1, rest.2)
    else ([], false)

/-- Set every listed cell to the current player's colour (the flip loop
body `b.Cells[pos.Row][pos.Col] = b.CurrentPlayer`). -/
def Board.setAll (b : Board) (ps : List (Int × Int)) : Board :=
  ps.foldl
    (fun bb p => { bb with Cells := updateCell bb.Cells p bb.CurrentPlayer })
    b

/-- One direction of `Board.flipPieces`: if the adjacent cell holds an
opponent piece, collect the run; if it ended on an own piece, flip the
collected cells and report how many were flipped. -/
def Board.flipDir (b : Board) (row col dr dc : Int) : Board × Nat :=
  let r := row + dr
  let c := col + dc
  if b.IsValidPosition r c = true ∧ b.Cells r c = b.getOpponent then
    let rest := b.collectRun dr dc 8 (r + dr) (c + dc)
    let toFlip := (r, c) :: rest.1
    if rest.2 then (b.setAll toFlip, toFlip.length) else (b, 0)
  else (b, 0)

/-- One iteration of the direction loop of `flipPieces`: run `flipDir` on
the current board and add its flip count to the running total. -/
def flipStep (row col : Int) (a : Board × Nat) (d : Int × Int) : Board × Nat :=
  let out := a.1.flipDir row col d.1 d.2
  (out.1, a.2 + out.2)

/-- `Board.flipPieces`: process the eight directions in order, then update
the piece counts by the number flipped. -/
def Board.flipPieces (b : Board) (row col : Int) : Board :=
  let res := Directions.foldl (flipStep row col) (b, 0)
  let b1 := res.1
  let flipped : Int := (res.2 : Int)
  if b1.CurrentPlayer = Piece.Black then
    { b1 with BlackCnt := b1.BlackCnt + flipped + 1
              WhiteCnt := b1.WhiteCnt - flipped }
  else
    { b1 with WhiteCnt := b1.WhiteCnt + flipped + 1
              BlackCnt := b1.BlackCnt - flipped }

/-- `Board.MakeMove`: returns the Go boolean plus the updated board
(the unchanged board when the move is rejected). -/
def Board.MakeMove (b : Board) (row col : Int) : Bool × Board :=
  if b.IsValidMove row col then
    let b1 := { b with Cells := updateCell b.Cells (row, col) b.CurrentPlayer }
    let b2 := b1.flipPieces row col
    (true, { b2 with CurrentPlayer := b2.getOpponent })
  else (false, b)

/-- `Board.IsGameOver`: the source temporarily swaps `CurrentPlayer` to the
opponent, queries, and restores; the embedding returns the answer together
with the board as left behind by the call. -/
def Board.IsGameOver (b : Board) : Bool × Board :=
  let current := b.CurrentPlayer
  if b.HasValidMove then (false, b)
  else
    let b1 := { b with CurrentPlayer := b.getOpponent }
    let opponentHasMove := b1.HasValidMove
    let b2 := { b1 with CurrentPlayer := current }
    (!opponentHasMove, b2)

/-- `Board.GetWinner`. -/
def Board.GetWinner (b : Board) : Piece :=
  if b.BlackCnt > b.WhiteCnt then Piece.Black
  else if b.WhiteCnt > b.BlackCnt then Piece.White
  else Piece.Empty

/-- `Board.Clone`: a deep copy; with value semantics this rebuilds the
record field by field. -/
def Board.Clone (b : Board) : Board :=
  { Cells := fun r c => b.Cells r c
    CurrentPlayer := b.CurrentPlayer
    BlackCnt := b.BlackCnt
    WhiteCnt := b.WhiteCnt }

/-- `Move` from the game-session code: the recorded position (or the
(-1,-1) pass sentinel) and the recorded piece. -/
structure Move where
  position : Position
  piece : Piece
deriving DecidableEq, Repr

/-- `Game` (the session): board, history, terminal flag, consecutive-pass
counter and winner. -/
structure Game where
  Board : Board
  History : List Move
  GameOver : Bool
  PassCount : Int
  Winner : Piece

/-- `NewGame`. -/
def NewGame : Game :=
  { Board := NewBoard
    History := []
    GameOver := false
    PassCount := 0
    Winner := Piece.Empty }

/-- `Game.updateGameState`: flag the game as over (and record the winner)
when the board is terminated or at least two consecutive passes occurred.
`Board.IsGameOver` restores the board it probes (proved below), so only
its boolean answer is consumed here. -/
def Game.updateGameState (g : Game) : Game :=
  if (g.Board.IsGameOver).1 = true ∨ g.PassCount ≥ 2 then
    { g with GameOver := true, Winner := g.Board.GetWinner }
  else g

/-- `Game.MakeMove`: reject when terminal or when the board rejects;
otherwise record the move in history — reading `CurrentPlayer` *after*
`Board.MakeMove` already switched it, exactly as the source does — reset
the pass counter and re-evaluate the game state. -/
def Game.MakeMove (g : Game) (row col : Int) : Except String Game :=
  if g.GameOver then Except.error "game is already over"
  else
    let res := g.Board.MakeMove row col
    if res.1 = false then Except.error "invalid move"
    else
      let g1 :=
        { g with
          Board := res.2
          History :=
            g.History ++ [Move.mk ⟨row, col⟩ res.2.CurrentPlayer]
          PassCount := 0 }
      Except.ok g1.updateGameState

/-- `Game.Pass`: reject when terminal or when a legal move exists;
otherwise record the pass (the acting piece, read before switching),
increment the pass counter, switch the board's player and re-evaluate. -/
def Game.Pass (g : Game) : Except String Game :=
  if g.GameOver then Except.error "game is already over"
  else if g.Board.HasValidMove then
    Except.error "cannot pass when valid moves are available"
  else
    let g1 :=
      { g with
        History :=
          g.History ++ [Move.mk ⟨-1, -1⟩ g.Board.CurrentPlayer]
        PassCount := g.PassCount + 1 }
    let g2 := { g1 with Board := { g1.Board with CurrentPlayer := g1.Board.getOpponent } }
    Except.ok g2.updateGameState

/-- The column-letter conversion of `ParseMove`: Go compares the first
byte's integer value against the letter ranges; `Char.toNat` of an ASCII
character is that byte value. -/
def colIndex (ch : Char) : Option Int :=
  if Char.toNat 'a' ≤ ch.toNat ∧ ch.toNat ≤ Char.toNat 'h' then
    some ((ch.toNat : Int) - (Char.toNat 'a' : Int))
  else if Char.toNat 'A' ≤ ch.toNat ∧ ch.toNat ≤ Char.toNat 'H' then
    some ((ch.toNat : Int) - (Char.toNat 'A' : Int))
  else none

/-- Accumulate the value of a maximal leading digit run (the digits read
by `fmt.Sscanf` with verb `%d`). -/
def digitsVal : List Char → Nat → Nat
  | [], acc => acc
  | ch :: rest, acc =>
    if ch.isDigit then digitsVal rest (acc * 10 + (ch.toNat - Char.toNat '0'))
    else acc

/-- Read a digit run: `none` when the input does not start with a digit. -/
def readDigits : List Char → Option Nat
  | [] => none
  | ch :: rest => if ch.isDigit then some (digitsVal (ch :: rest) 0) else none

/-- ASCII whitespace, as skipped by the Go scanner before a `%d` verb. -/
def isSpace (ch : Char) : Bool :=
  ch = ' ' ∨ ch = '\t' ∨ ch = '\n' ∨ ch = '\r'

/-- Semantics of `fmt.Sscanf(s, "%d", &row)` on the inputs this program
feeds it: skip leading whitespace, an optional sign, then a non-empty
digit run; `none` when no integer can be read (in which case the Go call
leaves `row` untouched).  Characters after the digit run are ignored. -/
def scanInt (s : List Char) : Option Int :=
  let s1 := s.dropWhile isSpace
  match s1 with
  | [] => none
  | ch :: rest =>
    if ch = '-' then (readDigits rest).map fun n => -(n : Int)
    else if ch = '+' then (readDigits rest).map fun n => (n : Int)
    else (readDigits (ch :: rest)).map fun n => (n : Int)

/-- The column-then-row part of `ParseMove`, applied to the first
character and the remaining characters: resolve the column letter, scan
the row number (`row` stays `-1` when no integer can be read, as the Go
`Sscanf` leaves it untouched), convert to 0-based and bound-check. -/
def parseTail (ch : Char) (rest : List Char) : Except String (Int × Int) :=
  match colIndex ch with
  | none => Except.error "invalid column"
  | some col =>
    let row0 := (scanInt rest).getD (-1)
    let row := row0 - 1
    if row < 0 ∨ row ≥ 8 ∨ col < 0 ∨ col ≥ 8 then
      Except.error "position out of bounds"
    else Except.ok (row, col)

/-- `ParseMove` from the game-session code. -/
def ParseMove (move : String) : Except String (Int × Int) :=
  if move.length < 2 then Except.error "invalid move format"
  else if move = "pass" ∨ move = "Pass" ∨ move = "PASS" then Except.ok (-1, -1)
  else
    match move.data with
    | [] => Except.error "invalid move format"
    | ch :: rest => parseTail ch rest

/-- The AI player from `pkg/ai/player.go`: a difficulty tag and the colour
it plays. -/
structure Player where
  Difficulty : String
  PieceOf : Piece

/-- `math.MinInt32`, the initial best score in the Go search loops. -/
def minInt32 : Int := -2147483648

/-- `math.MaxInt32`. -/
def maxInt32 : Int := 2147483647

/-- The local `max` helper of `pkg/ai/player.go`. -/
def maxI (a b : Int) : Int := if a > b then a else b

/-- The local `min` helper of `pkg/ai/player.go`. -/
def minI (a b : Int) : Int := if a < b then a else b

/-- The positional weight table of `Player.evaluatePosition`, row-major. -/
def weights : List (List Int) :=
  [[100, -20, 10, 5, 5, 10, -20, 100],
   [-20, -50, -2, -2, -2, -2, -50, -20],
   [10, -2, -1, -1, -1, -1, -2, 10],
   [5, -2, -1, -1, -1, -1, -2, 5],
   [5, -2, -1, -1, -1, -1, -2, 5],
   [10, -2, -1, -1, -1, -1, -2, 10],
   [-20, -50, -2, -2, -2, -2, -50, -20],
   [100, -20, 10, 5, 5, 10, -20, 100]]

/-- Array lookup `weights[i][j]` (indices are always in range in the
source; out-of-range defaults are never hit). -/
def weightAt (i j : Nat) : Int := (weights.getD i []).getD j 0

/-- `Player.evaluatePosition`: each cell owned by the agent's piece adds
its weight, each other occupied cell subtracts it. -/
def Player.evaluatePosition (p : Player) (b : Board) : Int :=
  (List.range 8).foldl
    (fun acc i =>
      (List.range 8).foldl
        (fun acc2 j =>
          let piece := b.GetPiece (Int.ofNat i) (Int.ofNat j)
          if piece = p.PieceOf then acc2 + weightAt i j
          else if piece ≠ Piece.Empty then acc2 - weightAt i j
          else acc2)
        acc)
    0

/-- The maximizing loop of `Player.minimax`, with the `beta <= alpha`
cutoff checked after each move, exactly as in the source. -/
def searchMax (next : Board → Int → Int → Int) (b : Board) :
    List Position → Int → Int → Int → Int
  | [], _, _, maxScore => maxScore
  | m :: ms, alpha, beta, maxScore =>
    let bc := (b.Clone.MakeMove m.Row m.Col).2
    let score := next bc alpha beta
    let maxScore2 := maxI maxScore score
    let alpha2 := maxI alpha score
    if beta ≤ alpha2 then maxScore2
    else searchMax next b ms alpha2 beta maxScore2

/-- The minimizing loop of `Player.minimax`. -/
def searchMin (next : Board → Int → Int → Int) (b : Board) :
    List Position → Int → Int → Int → Int
  | [], _, _, minScore => minScore
  | m :: ms, alpha, beta, minScore =>
    let bc := (b.Clone.MakeMove m.Row m.Col).2
    let score := next bc alpha beta
    let minScore2 := minI minScore score
    let beta2 := minI beta score
    if beta2 ≤ alpha then minScore2
    else searchMin next b ms alpha beta2 minScore2

/-- `Player.minimax` with alpha-beta pruning; the depth argument is the
recursion fuel, decremented on every recursive call as in the source. -/
def Player.minimax (p : Player) : Board → Nat → Int → Int → Bool → Int
  | b, 0, _, _, _ => p.evaluatePosition b
  | b, depth + 1, alpha, beta, maximizing =>
    if (b.IsGameOver).1 = true then p.evaluatePosition b
    else
      let moves := b.GetValidMoves
      if moves = [] then p.evaluatePosition b
      else if maximizing then
        searchMax (fun bb a2 b2 => p.minimax bb depth a2 b2 false) b moves
          alpha beta minInt32
      else
        searchMin (fun bb a2 b2 => p.minimax bb depth a2 b2 true) b moves
          alpha beta maxInt32

/-- `Player.getRandomMove`: `rand.Intn(len(moves))` is modelled by an
arbitrary draw `pick` reduced modulo the number of moves, covering every
value the generator can produce.  The error component is always `none`. -/
def Player.getRandomMove (_p : Player) (b : Board) (pick : Nat) :
    Int × Int × Option String :=
  let moves := b.GetValidMoves
  if moves = [] then (-1, -1, none)
  else
    let m := moves.getD (pick % moves.length) (Position.mk 0 0)
    (m.Row, m.Col, none)

/-- The best-score selection loop shared by the Medium and Hard tiers:
strictly greater scores win, so the earliest-seen best move is kept.
`bestMove` starts as the Go zero value `Position{0, 0}`. -/
def bestOf (score : Position → Int) :
    List Position → Int → Position → Position
  | [], _, bm => bm
  | m :: ms, bs, bm =>
    let s := score m
    if s > bs then bestOf score ms s m else bestOf score ms bs bm

/-- `Player.getMediumMove`: one-ply lookahead with the static evaluator. -/
def Player.getMediumMove (p : Player) (b : Board) :
    Int × Int × Option String :=
  let moves := b.GetValidMoves
  if moves = [] then (-1, -1, none)
  else
    let best :=
      bestOf
        (fun m => p.evaluatePosition (b.Clone.MakeMove m.Row m.Col).2)
        moves minInt32 (Position.mk 0 0)
    (best.Row, best.Col, none)

/-- `Player.getHardMove`: depth-4 minimax from each legal move. -/
def Player.getHardMove (p : Player) (b : Board) :
    Int × Int × Option String :=
  let moves := b.GetValidMoves
  if moves = [] then (-1, -1, none)
  else
    let best :=
      bestOf
        (fun m =>
          p.minimax (b.Clone.MakeMove m.Row m.Col).2 4 minInt32 maxInt32 false)
        moves minInt32 (Position.mk 0 0)
    (best.Row, best.Col, none)

/-- `Player.GetMove`: dispatch on the difficulty string; the `default`
branch of the Go switch falls back to the random (Easy) move. -/
def Player.GetMove (p : Player) (b : Board) (pick : Nat) :
    Int × Int × Option String :=
  if p.Difficulty = "easy" then p.getRandomMove b pick
  else if p.Difficulty = "medium" then p.getMediumMove b
  else if p.Difficulty = "hard" then p.getHardMove b
  else p.getRandomMove b pick

/-! ## Verification-side definitions -/

/-- Declarative legality in one direction, following the specification's
wording: some `k ≥ 2` such that the cells strictly between the move and
`k` (indices `1 ≤ i < k`) are on the board and hold opponent pieces (the
index-1 cell being the immediately-adjacent one), and the cell at index
`k` is on the board and holds the current player's piece.  An empty cell
or the board edge before such a `k` leaves the existential unsatisfied. -/
def bracketSpec (b : Board) (row col dr dc : Int) : Prop :=
  ∃ k : Nat, 2 ≤ k ∧
    (∀ i : Nat, 1 ≤ i → i < k →
      b.IsValidPosition (row + (i : Int) * dr) (col + (i : Int) * dc) = true ∧
      b.Cells (row + (i : Int) * dr) (col + (i : Int) * dc) = b.getOpponent) ∧
    b.IsValidPosition (row + (k : Int) * dr) (col + (k : Int) * dc) = true ∧
    b.Cells (row + (k : Int) * dr) (col + (k : Int) * dc) = b.CurrentPlayer

/-- The 64 on-board coordinates. -/
def coords : Finset (Int × Int) := Finset.Icc 0 7 ×ˢ Finset.Icc 0 7

/-- Number of on-board cells holding the piece `v`. -/
def countCells (cells : Int → Int → Piece) (v : Piece) : Nat :=
  (coords.filter fun p => cells p.1 p.2 = v).card

/-- Number of occupied (non-Empty) on-board cells. -/
def countNonEmpty (cells : Int → Int → Piece) : Nat :=
  (coords.filter fun p => cells p.1 p.2 ≠ Piece.Empty).card

/-- A dead position: a single black piece in a corner — neither side has
a legal move, so passing is legal for both. -/
def demoBoard : Board :=
  { Cells := updateCell (fun _ _ => Piece.Empty) (0, 0) Piece.Black
    CurrentPlayer := Piece.Black
    BlackCnt := 1
    WhiteCnt := 0 }

/-- A live session sitting on `demoBoard`. -/
def demoGame : Game :=
  { Board := demoBoard
    History := []
    GameOver := false
    PassCount := 0
    Winner := Piece.Empty }

/-- The session produced by the first (and only possible) pass on
`demoGame`: already terminal, with pass counter 1 and winner Black. -/
def demoAfterPass : Game :=
  { Board := { demoBoard with CurrentPlayer := Piece.White }
    History := [Move.mk ⟨-1, -1⟩ Piece.Black]
    GameOver := true
    PassCount := 1
    Winner := Piece.Black }

/-- Observable session outcome: terminal flag, pass counter, winner. -/
def gproj (g : Game) : Bool × Int × Piece := (g.GameOver, g.PassCount, g.Winner)

/-! ## Theorems -/

/-- C8.  `Board.IsGameOver` returns true iff neither the current player
nor the opponent has any legal move, and it leaves the board exactly as it
was on every return path (in particular `CurrentPlayer`, the grid and the
counts are untouched): the temporary player swap is always undone. -/
theorem isGameOver_spec (b : Board) :
    (b.IsGameOver).2 = b ∧
      ((b.IsGameOver).1 = true ↔
        b.HasValidMove = false ∧
          ({ b with CurrentPlayer := b.getOpponent } : Board).HasValidMove = false) := by
  unfold Board.IsGameOver
  by_cases h : b.HasValidMove = true
  · simp [h]
  · simp only [Bool.not_eq_true] at h
    simp [h]

/-- C5.  Whenever the minimax recursion hits a terminal node — depth
exhausted, board terminal, or no legal move for the side to move — it
returns the static evaluation `p.evaluatePosition` of that board, which
scores from the root agent's own piece (`p.PieceOf`), not from the
perspective of the node's mover. -/
theorem minimax_terminal_eval (p : Player) (b : Board) (depth : Nat)
    (alpha beta : Int) (maximizing : Bool)
    (h : depth = 0 ∨ (b.IsGameOver).1 = true ∨ b.GetValidMoves = []) :
    p.minimax b depth alpha beta maximizing = p.evaluatePosition b := by
  cases depth with
  | zero => rfl
  | succ n =>
    rcases h with h0 | hgo | hmv
    · exact absurd h0 (Nat.succ_ne_zero n)
    · simp [Player.minimax, hgo]
    · by_cases hgo : (b.IsGameOver).1 = true
      · simp [Player.minimax, hgo]
      · simp [Player.minimax, hgo, hmv]

/-- Witness for C5 at depth 0 on the initial board. -/
theorem minimax_terminal_eval_witness :
    ((0 : Nat) = 0 ∨ (NewBoard.IsGameOver).1 = true ∨ NewBoard.GetValidMoves = []) ∧
      Player.minimax ⟨"hard", Piece.Black⟩ NewBoard 0 minInt32 maxInt32 true =
        Player.evaluatePosition ⟨"hard", Piece.Black⟩ NewBoard :=
  ⟨Or.inl rfl,
   minimax_terminal_eval ⟨"hard", Piece.Black⟩ NewBoard 0 minInt32 maxInt32 true
     (Or.inl rfl)⟩

/-- C4, code evaluation at the failing input.  From the initial session
Black plays D3 (row 2, col 3); the move succeeds, but the history records
the `Move` with piece White — `Game.MakeMove` reads `CurrentPlayer` after
`Board.MakeMove` has already switched it — although the acting side was
Black.  `Game.Pass`, by contrast, records the acting piece. -/
theorem makeMove_history_piece :
    (Game.MakeMove NewGame 2 3).map
        (fun g => g.History.map fun m => (m.position.Row, m.position.Col, m.piece)) =
      Except.ok [(2, 3, Piece.White)] ∧
    NewGame.Board.CurrentPlayer = Piece.Black :=
  ⟨rfl, rfl⟩

/-- Folds whose step functions are pointwise negation-compatible produce
negated results. -/
theorem foldl_neg {α : Type} (f g : Int → α → Int)
    (h : ∀ a x, f a x = -g (-a) x) :
    ∀ (l : List α) (a : Int), l.foldl f a = -l.foldl g (-a) := by
  intro l
  induction l with
  | nil => intro a; simp
  | cons x l ih =>
    intro a
    simp only [List.foldl_cons]
    rw [h a x, ih (-g (-a) x), neg_neg]

/-- C6.  The evaluator is antisymmetric in the scored colour: with the
weight-table contribution of each occupied cell positive for the scored
piece and negative for its opponent (Empty contributing 0), the score for
Black is the negation of the score for White on every board, whatever the
difficulty tags. -/
theorem evaluate_antisymm (d1 d2 : String) (b : Board) :
    Player.evaluatePosition ⟨d1, Piece.Black⟩ b =
      -Player.evaluatePosition ⟨d2, Piece.White⟩ b := by
  show (List.range 8).foldl _ 0 = -(List.range 8).foldl _ 0
  rw [show (0 : Int) = -0 by ring]
  refine foldl_neg _ _ (fun a i => ?_) (List.range 8) 0
  refine foldl_neg _ _ (fun a2 j => ?_) (List.range 8) a
  cases hpc : b.GetPiece (Int.ofNat i) (Int.ofNat j) <;> simp [hpc] <;> ring

/-- C9.  For every difficulty string other than "easy", "medium" and
"hard", `Player.GetMove` does not fail: it coincides with the Easy tier
for every random draw — a random element of the valid moves with a `nil`
error, or (-1, -1) with a `nil` error when no valid move exists. -/
theorem getMove_default_easy (d : String) (pc : Piece) (b : Board) (pick : Nat)
    (h1 : d ≠ "easy") (h2 : d ≠ "medium") (h3 : d ≠ "hard") :
    Player.GetMove ⟨d, pc⟩ b pick = Player.GetMove ⟨"easy", pc⟩ b pick ∧
      (Player.GetMove ⟨d, pc⟩ b pick).2.2 = none ∧
      (b.GetValidMoves = [] → Player.GetMove ⟨d, pc⟩ b pick = (-1, -1, none)) ∧
      (b.GetValidMoves ≠ [] →
        ∃ m ∈ b.GetValidMoves, Player.GetMove ⟨d, pc⟩ b pick = (m.Row, m.Col, none)) := by
  have hdis : Player.GetMove ⟨d, pc⟩ b pick = Player.getRandomMove ⟨d, pc⟩ b pick := by
    simp [Player.GetMove, h1, h2, h3]
  have heasy : Player.GetMove ⟨"easy", pc⟩ b pick =
      Player.getRandomMove ⟨"easy", pc⟩ b pick := by
    simp [Player.GetMove]
  refine ⟨by rw [hdis, heasy]; rfl, ?_, ?_, ?_⟩
  · rw [hdis]
    unfold Player.getRandomMove
    by_cases hmv : b.GetValidMoves = [] <;> simp [hmv]
  · intro hmv; rw [hdis]; simp [Player.getRandomMove, hmv]
  · intro hmv
    rw [hdis]
    unfold Player.getRandomMove
    simp only [hmv, if_neg]
    have hlen : 0 < b.GetValidMoves.length := List.length_pos.mpr hmv
    have hidx : pick % b.GetValidMoves.length < b.GetValidMoves.length :=
      Nat.mod_lt _ hlen
    refine ⟨b.GetValidMoves.getD (pick % b.GetValidMoves.length) (Position.mk 0 0),
      ?_, by simp [hmv]⟩
    rw [List.getD_eq_getElem _ _ hidx]
    exact List.getElem_mem hidx

/-- Witness for C9: an unknown difficulty tag on the initial board. -/
theorem getMove_default_easy_witness :
    (("expert" : String) ≠ "easy" ∧ ("expert" : String) ≠ "medium" ∧
        ("expert" : String) ≠ "hard") ∧
      Player.GetMove ⟨"expert", Piece.White⟩ NewBoard 5 =
        Player.GetMove ⟨"easy", Piece.White⟩ NewBoard 5 :=
  ⟨⟨by decide, by decide, by decide⟩,
   (getMove_default_easy "expert" Piece.White NewBoard 5 (by decide) (by decide)
      (by decide)).1⟩

/-- Setting `CurrentPlayer` to its current value is the identity. -/
theorem set_current_self (S : Board) (x : Piece) (h : S.CurrentPlayer = x) :
    ({ S with CurrentPlayer := x } : Board) = S := by
  cases S
  cases h
  rfl

/-- Two successive `CurrentPlayer` updates collapse to the last one. -/
theorem set_current_set_current (S : Board) (x y : Piece) :
    ({ ({ S with CurrentPlayer := x } : Board) with CurrentPlayer := y } : Board) =
      { S with CurrentPlayer := y } := by
  cases S
  rfl

/-- The opponent of the opponent is the original (proper) player. -/
theorem opp_opp (S : Board)
    (hcur : S.CurrentPlayer = Piece.Black ∨ S.CurrentPlayer = Piece.White) :
    ({ S with CurrentPlayer := S.getOpponent } : Board).getOpponent =
      S.CurrentPlayer := by
  rcases hcur with h | h <;> simp [Board.getOpponent, h]

/-- Undoing the player swap restores the original board. -/
theorem swap_restore (S : Board)
    (hcur : S.CurrentPlayer = Piece.Black ∨ S.CurrentPlayer = Piece.White) :
    ({ ({ S with CurrentPlayer := S.getOpponent } : Board) with
        CurrentPlayer :=
          ({ S with CurrentPlayer := S.getOpponent } : Board).getOpponent } : Board) =
      S := by
  rw [opp_opp S hcur, set_current_set_current]

/-- Inversion of a successful `Game.Pass`. -/
theorem pass_ok_inv (g g1 : Game) (h : Game.Pass g = Except.ok g1) :
    g.GameOver = false ∧ g.Board.HasValidMove = false ∧
      g1 = Game.updateGameState
        { g with
          Board := { g.Board with CurrentPlayer := g.Board.getOpponent }
          History := g.History ++ [Move.mk ⟨-1, -1⟩ g.Board.CurrentPlayer]
          PassCount := g.PassCount + 1 } := by
  unfold Game.Pass at h
  split_ifs at h with h1 h2
  exact ⟨by simpa using h1, by simpa using h2, (Except.ok.inj h).symm⟩

/-- How `Game.updateGameState` acts in each case. -/
theorem updateGameState_cases (g : Game) :
    (Game.updateGameState g).Board = g.Board ∧
      (Game.updateGameState g).PassCount = g.PassCount ∧
      (((g.Board.IsGameOver).1 = true ∨ g.PassCount ≥ 2) →
        (Game.updateGameState g).GameOver = true ∧
          (Game.updateGameState g).Winner = g.Board.GetWinner) ∧
      (¬((g.Board.IsGameOver).1 = true ∨ g.PassCount ≥ 2) →
        Game.updateGameState g = g) := by
  unfold Game.updateGameState
  split_ifs with hc <;> simp [hc]

/-- After a pass by a side with no move, if the other side has no move
either, the board reports game over. -/
theorem after_pass_over (S : Board)
    (hcur : S.CurrentPlayer = Piece.Black ∨ S.CurrentPlayer = Piece.White)
    (hHV1 : S.HasValidMove = false)
    (hHV2 : ({ S with CurrentPlayer := S.getOpponent } : Board).HasValidMove = false) :
    (({ S with CurrentPlayer := S.getOpponent } : Board).IsGameOver).1 = true := by
  unfold Board.IsGameOver
  rw [swap_restore S hcur]
  simp [hHV1, hHV2]

/-- C3, amended.  In this engine a double pass can never be observed as
two successful `Pass` calls: the first pass of any double-pass situation
already drives the session terminal.  Part one: from any session whose
board has a proper current player, two consecutive successful passes are
impossible.  Part two: a successful pass from a state where the opponent
also has no legal move immediately sets the terminal flag, leaves the
pass counter at its prior value plus 1 (so 1, not ≥ 2, from a reachable
state), and sets Winner to Black if BlackCnt > WhiteCnt, White if
WhiteCnt > BlackCnt, and Empty on a tie. -/
theorem pass_termination :
    (∀ g g1 g2 : Game,
        (g.Board.CurrentPlayer = Piece.Black ∨ g.Board.CurrentPlayer = Piece.White) →
        Game.Pass g = Except.ok g1 → Game.Pass g1 = Except.ok g2 → False) ∧
      (∀ g g1 : Game,
        (g.Board.CurrentPlayer = Piece.Black ∨ g.Board.CurrentPlayer = Piece.White) →
        Game.Pass g = Except.ok g1 →
        ({ g.Board with CurrentPlayer := g.Board.getOpponent } : Board).HasValidMove =
          false →
        g1.GameOver = true ∧ g1.PassCount = g.PassCount + 1 ∧
          g1.Winner =
            (if g1.Board.BlackCnt > g1.Board.WhiteCnt then Piece.Black
             else if g1.Board.WhiteCnt > g1.Board.BlackCnt then Piece.White
             else Piece.Empty)) := by
  constructor
  · intro g g1 g2 hcur hp1 hp2
    obtain ⟨hGO, hHV1, rfl⟩ := pass_ok_inv _ _ hp1
    obtain ⟨hGO2, hHV2, -⟩ := pass_ok_inv _ _ hp2
    obtain ⟨hBoard, hPC, hOver, hKeep⟩ := updateGameState_cases
      { g with
        Board := { g.Board with CurrentPlayer := g.Board.getOpponent }
        History := g.History ++ [Move.mk ⟨-1, -1⟩ g.Board.CurrentPlayer]
        PassCount := g.PassCount + 1 }
    rw [hBoard] at hHV2
    have hover : (({ g.Board with CurrentPlayer := g.Board.getOpponent } :
        Board).IsGameOver).1 = true :=
      after_pass_over g.Board hcur hHV1 hHV2
    have := (hOver (Or.inl hover)).1
    rw [this] at hGO2
    exact Bool.noConfusion hGO2
  · intro g g1 hcur hp1 hopp
    obtain ⟨hGO, hHV1, rfl⟩ := pass_ok_inv _ _ hp1
    obtain ⟨hBoard, hPC, hOver, hKeep⟩ := updateGameState_cases
      { g with
        Board := { g.Board with CurrentPlayer := g.Board.getOpponent }
        History := g.History ++ [Move.mk ⟨-1, -1⟩ g.Board.CurrentPlayer]
        PassCount := g.PassCount + 1 }
    have hover : (({ g.Board with CurrentPlayer := g.Board.getOpponent } :
        Board).IsGameOver).1 = true :=
      after_pass_over g.Board hcur hHV1 hopp
    obtain ⟨hflag, hwin⟩ := hOver (Or.inl hover)
    refine ⟨hflag, by simpa using hPC, ?_⟩
    rw [hwin, hBoard]
    rfl

/-- Counterexample input for C3: on `demoGame` (a live session where
neither side can move) the *first* pass already yields a terminal session
with pass counter 1 — not ≥ 2 — and winner Black, and the second pass is
rejected with "game is already over", so the claim's two consecutive
successful passes never occur. -/
theorem pass_termination_counterexample :
    (Game.Pass demoGame).map gproj = Except.ok (true, 1, Piece.Black) ∧
      ((Game.Pass demoGame).bind Game.Pass).map gproj =
        Except.error "game is already over" :=
  ⟨rfl, rfl⟩

/-- Witness for C3 (part two) at the concrete dead position. -/
theorem pass_termination_witness :
    ((demoGame.Board.CurrentPlayer = Piece.Black ∨
        demoGame.Board.CurrentPlayer = Piece.White) ∧
      Game.Pass demoGame = Except.ok demoAfterPass ∧
      ({ demoGame.Board with CurrentPlayer := demoGame.Board.getOpponent } :
          Board).HasValidMove = false) ∧
      demoAfterPass.GameOver = true ∧
      demoAfterPass.PassCount = demoGame.PassCount + 1 ∧
      demoAfterPass.Winner =
        (if demoAfterPass.Board.BlackCnt > demoAfterPass.Board.WhiteCnt then
           Piece.Black
         else if demoAfterPass.Board.WhiteCnt > demoAfterPass.Board.BlackCnt then
           Piece.White
         else Piece.Empty) :=
  ⟨⟨Or.inl rfl, rfl, by decide⟩,
   pass_termination.2 demoGame demoAfterPass (Or.inl rfl) rfl (by decide)⟩

/-- A resolved column index lies in `[0, 8)`. -/
theorem colIndex_bounds (ch : Char) (col : Int) (h : colIndex ch = some col) :
    0 ≤ col ∧ col < 8 := by
  unfold colIndex at h
  have ha : Char.toNat 'a' = 97 := rfl
  have hh : Char.toNat 'h' = 104 := rfl
  have hA : Char.toNat 'A' = 65 := rfl
  have hH : Char.toNat 'H' = 72 := rfl
  split_ifs at h with h1 h2
  · obtain rfl := (Option.some.inj h).symm
    rw [ha, hh] at h1
    rw [ha]
    omega
  · obtain rfl := (Option.some.inj h).symm
    rw [hA, hH] at h2
    rw [hA]
    omega

/-- A character that resolves to a column is neither `p` nor `P`, so no
string starting with it is one of the pass literals. -/
theorem colIndex_ne_pass_heads (ch : Char) (col : Int)
    (h : colIndex ch = some col) : ch ≠ 'p' ∧ ch ≠ 'P' := by
  constructor
  · rintro rfl
    rw [show colIndex 'p' = none from rfl] at h
    exact Option.noConfusion h
  · rintro rfl
    rw [show colIndex 'P' = none from rfl] at h
    exact Option.noConfusion h

/-- Reduction of `ParseMove` to `parseTail` for a non-pass-literal input
of length at least 2. -/
theorem parse_reduce (s : String) (ch : Char) (rest : List Char)
    (hdata : s.data = ch :: rest) (hrest : rest ≠ [])
    (hp : ch ≠ 'p') (hP : ch ≠ 'P') :
    ParseMove s = parseTail ch rest := by
  obtain ⟨data⟩ := s
  have hdata' : data = ch :: rest := hdata
  subst hdata'
  unfold ParseMove
  have hlen : ¬(String.length ⟨ch :: rest⟩ < 2) := by
    show ¬((ch :: rest).length < 2)
    cases rest with
    | nil => exact absurd rfl hrest
    | cons a t =>
      intro hlt
      simp only [List.length_cons] at hlt
      omega
  rw [if_neg hlen]
  have hpass : ¬((String.mk (ch :: rest)) = "pass" ∨
      (String.mk (ch :: rest)) = "Pass" ∨ (String.mk (ch :: rest)) = "PASS") := by
    rintro (he | he | he)
    · have : ch :: rest = ['p', 'a', 's', 's'] := congrArg String.data he
      exact hp (List.head_eq_of_cons_eq this)
    · have : ch :: rest = ['P', 'a', 's', 's'] := congrArg String.data he
      exact hP (List.head_eq_of_cons_eq this)
    · have : ch :: rest = ['P', 'A', 'S', 'S'] := congrArg String.data he
      exact hP (List.head_eq_of_cons_eq this)
  rw [if_neg hpass]

/-- A digit is not scanner whitespace. -/
theorem digit_not_space (ch : Char) (h : ch.isDigit = true) :
    isSpace ch = false := by
  by_cases hsp : isSpace ch = true
  · exfalso
    simp only [isSpace, decide_eq_true_eq] at hsp
    rcases hsp with rfl | rfl | rfl | rfl <;> exact absurd h (by decide)
  · simpa using hsp

/-- Reading digits stops at the first non-digit, so a trailing part that
does not start with a digit contributes nothing. -/
theorem digitsVal_append : ∀ (ds tail : List Char) (acc : Nat),
    (∀ d ∈ ds, d.isDigit = true) →
    (∀ t0, tail.head? = some t0 → t0.isDigit = false) →
    digitsVal (ds ++ tail) acc = digitsVal ds acc := by
  intro ds
  induction ds with
  | nil =>
    intro tail acc _ ht
    cases tail with
    | nil => rfl
    | cons t ts => simp [digitsVal, ht t rfl]
  | cons d ds ih =>
    intro tail acc hd ht
    have hdd := hd d (List.mem_cons_self d ds)
    simp only [List.cons_append, digitsVal, hdd, if_true]
    exact ih tail _ (fun x hx => hd x (List.mem_cons_of_mem d hx)) ht

/-- `scanInt` on a non-empty digit run followed by a non-digit tail
returns the value of the digit run. -/
theorem scanInt_digits (ds tail : List Char) (hne : ds ≠ [])
    (hd : ∀ d ∈ ds, d.isDigit = true)
    (ht : ∀ t0, tail.head? = some t0 → t0.isDigit = false) :
    scanInt (ds ++ tail) = some ((digitsVal ds 0 : Int)) := by
  obtain ⟨d, ds', rfl⟩ : ∃ d ds', ds = d :: ds' := by
    cases ds with
    | nil => exact absurd rfl hne
    | cons d ds' => exact ⟨d, ds', rfl⟩
  have hdd : d.isDigit = true := hd d (List.mem_cons_self d ds')
  have hnspace : isSpace d = false := digit_not_space d hdd
  have hnm : ¬(d = '-') := by rintro rfl; exact absurd hdd (by decide)
  have hnp : ¬(d = '+') := by rintro rfl; exact absurd hdd (by decide)
  simp only [scanInt, List.cons_append, List.dropWhile_cons, hnspace,
    Bool.false_eq_true, if_false, readDigits]
  rw [if_neg hnm, if_neg hnp, if_pos hdd, ← List.cons_append,
    digitsVal_append (d :: ds') tail 0 hd ht]
  rfl

/-- `scanInt` of a bare digit run. -/
theorem scanInt_digits_nil (ds : List Char) (hne : ds ≠ [])
    (hd : ∀ d ∈ ds, d.isDigit = true) :
    scanInt ds = some ((digitsVal ds 0 : Int)) := by
  have := scanInt_digits ds [] hne hd (by intro t0 h0; cases h0)
  rwa [List.append_nil] at this

/-- C7, counterexample: a mixed-case pass token is not recognised — the
claim's "any letter case" fails on `pAss`, which falls through to column
parsing and is rejected. -/
theorem parse_pass_mixed_case :
    ParseMove "pAss" = Except.error "invalid column" ∧
      ParseMove "pAss" ≠ Except.ok (-1, -1) := by
  refine ⟨rfl, ?_⟩
  intro hc
  rw [show ParseMove "pAss" = Except.error "invalid column" from rfl] at hc
  exact Except.noConfusion hc

/-- C7, amended.  Move parsing accepts exactly the three pass spellings
"pass", "Pass" and "PASS" (not arbitrary letter case); it fails with the
invalid-format error "invalid move format" when the input is shorter than
2 characters, with the invalid-format error "invalid column" when the
first character is not a column letter (and the input is not a pass
literal), and with the out-of-bounds error when the column resolves but
the parsed row falls outside the 8x8 range. -/
theorem parse_move_error_taxonomy :
    (ParseMove "pass" = Except.ok (-1, -1) ∧ ParseMove "Pass" = Except.ok (-1, -1) ∧
        ParseMove "PASS" = Except.ok (-1, -1)) ∧
      (∀ s : String, s.length < 2 → ParseMove s = Except.error "invalid move format") ∧
      (∀ (s : String) (ch : Char) (rest : List Char),
        s.data = ch :: rest → s ≠ "pass" → s ≠ "Pass" → s ≠ "PASS" →
        ¬(s.length < 2) → colIndex ch = none →
        ParseMove s = Except.error "invalid column") ∧
      (∀ (s : String) (ch : Char) (rest : List Char) (col : Int),
        s.data = ch :: rest → rest ≠ [] → colIndex ch = some col →
        ((scanInt rest).getD (-1) - 1 < 0 ∨ (scanInt rest).getD (-1) - 1 ≥ 8) →
        ParseMove s = Except.error "position out of bounds") := by
  refine ⟨⟨rfl, rfl, rfl⟩, ?_, ?_, ?_⟩
  · intro s h
    unfold ParseMove
    rw [if_pos h]
  · intro s ch rest hdata hnp1 hnp2 hnp3 hlen hcol
    obtain ⟨data⟩ := s
    have hdata' : data = ch :: rest := hdata
    subst hdata'
    unfold ParseMove
    have hpassne : ¬((String.mk (ch :: rest)) = "pass" ∨
        (String.mk (ch :: rest)) = "Pass" ∨ (String.mk (ch :: rest)) = "PASS") := by
      rintro (he | he | he)
      · exact hnp1 he
      · exact hnp2 he
      · exact hnp3 he
    rw [if_neg hlen, if_neg hpassne]
    show parseTail ch rest = _
    unfold parseTail
    rw [hcol]
  · intro s ch rest col hdata hrest hcol hrow
    obtain ⟨hp, hP⟩ := colIndex_ne_pass_heads ch col hcol
    rw [parse_reduce s ch rest hdata hrest hp hP]
    unfold parseTail
    rw [hcol]
    show (if (scanInt rest).getD (-1) - 1 < 0 ∨ (scanInt rest).getD (-1) - 1 ≥ 8 ∨
          col < 0 ∨ col ≥ 8 then Except.error "position out of bounds"
        else Except.ok ((scanInt rest).getD (-1) - 1, col)) =
      Except.error "position out of bounds"
    rcases hrow with h | h
    · rw [if_pos (Or.inl h)]
    · rw [if_pos (Or.inr (Or.inl h))]

/-- Witness for C7 (amended) at concrete inputs of each failure class. -/
theorem parse_move_error_taxonomy_witness :
    ParseMove "pass" = Except.ok (-1, -1) ∧
      (("x" : String).length < 2 ∧ ParseMove "x" = Except.error "invalid move format") ∧
      ParseMove "zz" = Except.error "invalid column" ∧
      ParseMove "A9" = Except.error "position out of bounds" :=
  ⟨parse_move_error_taxonomy.1.1,
   ⟨by decide, parse_move_error_taxonomy.2.1 "x" (by decide)⟩,
   parse_move_error_taxonomy.2.2.1 "zz" 'z' ['z'] rfl (by decide) (by decide)
     (by decide) (by decide) rfl,
   parse_move_error_taxonomy.2.2.2 "A9" 'A' ['9'] 0 rfl (by decide) rfl
     (by decide)⟩

/-- C10, counterexample: on "A" — a column letter whose remainder yields
no readable integer — parsing fails with the invalid-format error (the
length check runs first), not the out-of-bounds error the claim names. -/
theorem parse_single_letter :
    ParseMove "A" = Except.error "invalid move format" ∧
      ParseMove "A" ≠ Except.error "position out of bounds" := by
  refine ⟨rfl, ?_⟩
  intro hc
  rw [show ParseMove "A" = Except.error "invalid move format" from rfl] at hc
  have := (Except.error.inj hc)
  exact absurd this (by decide)

/-- C10, amended.  For inputs whose first character is a column letter
and whose remainder starts with a digit run valued in 1..8, `ParseMove`
succeeds and ignores everything after the digits (parsing to the same
coordinates as the column letter followed by the digits alone); and for
inputs of length at least 2 whose column letter resolves but whose
remainder yields no readable integer, it fails with the out-of-bounds
error — a lone column letter, however, fails earlier with the
invalid-format length check. -/
theorem parse_trailing_and_scan_failure :
    (∀ (s : String) (ch : Char) (ds tail : List Char) (col : Int),
        s.data = ch :: (ds ++ tail) → colIndex ch = some col → ds ≠ [] →
        (∀ d ∈ ds, d.isDigit = true) →
        (∀ t0, tail.head? = some t0 → t0.isDigit = false) →
        1 ≤ digitsVal ds 0 → digitsVal ds 0 ≤ 8 →
        ParseMove s = Except.ok ((digitsVal ds 0 : Int) - 1, col) ∧
          ParseMove s = ParseMove (String.mk (ch :: ds))) ∧
      (∀ (s : String) (ch : Char) (rest : List Char) (col : Int),
        s.data = ch :: rest → rest ≠ [] → colIndex ch = some col →
        scanInt rest = none →
        ParseMove s = Except.error "position out of bounds") := by
  constructor
  · intro s ch ds tail col hdata hcol hne hd ht h1 h8
    obtain ⟨hp, hP⟩ := colIndex_ne_pass_heads ch col hcol
    have hrest : ds ++ tail ≠ [] := by
      cases ds with
      | nil => exact absurd rfl hne
      | cons a t => simp
    have hscan := scanInt_digits ds tail hne hd ht
    have hscan2 := scanInt_digits_nil ds hne hd
    have hcb := colIndex_bounds ch col hcol
    have hok : ∀ r : List Char, scanInt r = some ((digitsVal ds 0 : Int)) →
        parseTail ch r = Except.ok ((digitsVal ds 0 : Int) - 1, col) := by
      intro r hr
      unfold parseTail
      rw [hcol]
      show (if (scanInt r).getD (-1) - 1 < 0 ∨ (scanInt r).getD (-1) - 1 ≥ 8 ∨
            col < 0 ∨ col ≥ 8 then Except.error "position out of bounds"
          else Except.ok ((scanInt r).getD (-1) - 1, col)) = _
      rw [hr]
      simp only [Option.getD_some]
      rw [if_neg (by push_neg; omega)]
    have e1 : ParseMove s = Except.ok ((digitsVal ds 0 : Int) - 1, col) := by
      rw [parse_reduce s ch (ds ++ tail) hdata hrest hp hP]
      exact hok (ds ++ tail) hscan
    have e2 : ParseMove (String.mk (ch :: ds)) =
        Except.ok ((digitsVal ds 0 : Int) - 1, col) := by
      rw [parse_reduce (String.mk (ch :: ds)) ch ds rfl hne hp hP]
      exact hok ds hscan2
    exact ⟨e1, by rw [e1, e2]⟩
  · intro s ch rest col hdata hrest hcol hnone
    obtain ⟨hp, hP⟩ := colIndex_ne_pass_heads ch col hcol
    rw [parse_reduce s ch rest hdata hrest hp hP]
    unfold parseTail
    rw [hcol]
    show (if (scanInt rest).getD (-1) - 1 < 0 ∨ (scanInt rest).getD (-1) - 1 ≥ 8 ∨
          col < 0 ∨ col ≥ 8 then Except.error "position out of bounds"
        else Except.ok ((scanInt rest).getD (-1) - 1, col)) = _
    rw [if_pos (Or.inl (by rw [hnone]; simp))]

/-- Witness for C10 (amended): "A1xyz" parses like "A1", and "Ax" is
rejected as out of bounds. -/
theorem parse_trailing_and_scan_failure_witness :
    ParseMove "A1xyz" = Except.ok (0, 0) ∧
      ParseMove "A1xyz" = ParseMove "A1" ∧
      ParseMove "Ax" = Except.error "position out of bounds" := by
  have h1 := parse_trailing_and_scan_failure.1 "A1xyz" 'A' ['1'] ['x', 'y', 'z'] 0
    rfl (by decide) (by decide) (by decide)
    (by intro t0 h0; cases h0; decide) (by decide) (by decide)
  have h2 := parse_trailing_and_scan_failure.2 "Ax" 'A' ['x'] 0 rfl (by decide)
    (by decide) (by decide)
  exact ⟨h1.1, h1.2, h2⟩

/-- Unfolding of the position-validity test. -/
theorem valid_pos_iff (b : Board) (r c : Int) :
    b.IsValidPosition r c = true ↔ 0 ≤ r ∧ r < 8 ∧ 0 ≤ c ∧ c < 8 := by
  simp [Board.IsValidPosition]

/-- With a proper current player, a piece that is neither the current
player's nor empty is the opponent's. -/
theorem piece_resolve (b : Board)
    (hcur : b.CurrentPlayer = Piece.Black ∨ b.CurrentPlayer = Piece.White)
    (x : Piece) (hx1 : x ≠ b.CurrentPlayer) (hx2 : x ≠ Piece.Empty) :
    x = b.getOpponent := by
  rcases hcur with h | h <;> cases x <;> simp_all [Board.getOpponent]

/-- With a proper current player the opponent differs from the player. -/
theorem opp_ne_cur (b : Board)
    (hcur : b.CurrentPlayer = Piece.Black ∨ b.CurrentPlayer = Piece.White) :
    b.getOpponent ≠ b.CurrentPlayer := by
  rcases hcur with h | h <;> simp [Board.getOpponent, h]

/-- With a proper current player the opponent is not Empty. -/
theorem opp_ne_empty (b : Board)
    (hcur : b.CurrentPlayer = Piece.Black ∨ b.CurrentPlayer = Piece.White) :
    b.getOpponent ≠ Piece.Empty := by
  rcases hcur with h | h <;> simp [Board.getOpponent, h]

/-- Soundness of the legality scan: a `true` answer exhibits a walk index
`j` below the fuel whose earlier cells are on-board, non-empty and not the
current player's, with the cell at `j` on-board and the current player's. -/
theorem scanDir_sound (b : Board) (dr dc : Int) :
    ∀ (fuel : Nat) (r c : Int), b.scanDir dr dc fuel r c = true →
      ∃ j : Nat, j < fuel ∧
        (∀ i : Nat, i < j →
          b.IsValidPosition (r + (i : Int) * dr) (c + (i : Int) * dc) = true ∧
          b.Cells (r + (i : Int) * dr) (c + (i : Int) * dc) ≠ b.CurrentPlayer ∧
          b.Cells (r + (i : Int) * dr) (c + (i : Int) * dc) ≠ Piece.Empty) ∧
        b.IsValidPosition (r + (j : Int) * dr) (c + (j : Int) * dc) = true ∧
        b.Cells (r + (j : Int) * dr) (c + (j : Int) * dc) = b.CurrentPlayer := by
  intro fuel
  induction fuel with
  | zero => intro r c h; exact Bool.noConfusion h
  | succ f ih =>
    intro r c h
    unfold Board.scanDir at h
    split_ifs at h with hv hc he
    · refine ⟨0, Nat.succ_pos f, ?_, ?_, ?_⟩
      · intro i hi; exact absurd hi (Nat.not_lt_zero i)
      · simpa using hv
      · simpa using hc
    · obtain ⟨j, hj, hrun, hvend, hcend⟩ := ih (r + dr) (c + dc) h
      refine ⟨j + 1, by omega, ?_, ?_, ?_⟩
      · intro i hi
        cases i with
        | zero => simpa using ⟨hv, hc, he⟩
        | succ i' =>
          have hp1 : r + ((i' + 1 : Nat) : Int) * dr = r + dr + (i' : Int) * dr := by
            push_cast; ring
          have hp2 : c + ((i' + 1 : Nat) : Int) * dc = c + dc + (i' : Int) * dc := by
            push_cast; ring
          rw [hp1, hp2]
          exact hrun i' (by omega)
      · have hp1 : r + ((j + 1 : Nat) : Int) * dr = r + dr + (j : Int) * dr := by
          push_cast; ring
        have hp2 : c + ((j + 1 : Nat) : Int) * dc = c + dc + (j : Int) * dc := by
          push_cast; ring
        rw [hp1, hp2]
        exact hvend
      · have hp1 : r + ((j + 1 : Nat) : Int) * dr = r + dr + (j : Int) * dr := by
          push_cast; ring
        have hp2 : c + ((j + 1 : Nat) : Int) * dc = c + dc + (j : Int) * dc := by
          push_cast; ring
        rw [hp1, hp2]
        exact hcend

/-- Completeness of the legality scan: enough fuel plus an opponent run
ending on the current player's piece makes the scan answer `true`. -/
theorem scanDir_complete (b : Board) (dr dc : Int)
    (hcur : b.CurrentPlayer = Piece.Black ∨ b.CurrentPlayer = Piece.White) :
    ∀ (j : Nat) (r c : Int) (fuel : Nat), j < fuel →
      (∀ i : Nat, i < j →
        b.IsValidPosition (r + (i : Int) * dr) (c + (i : Int) * dc) = true ∧
        b.Cells (r + (i : Int) * dr) (c + (i : Int) * dc) = b.getOpponent) →
      b.IsValidPosition (r + (j : Int) * dr) (c + (j : Int) * dc) = true →
      b.Cells (r + (j : Int) * dr) (c + (j : Int) * dc) = b.CurrentPlayer →
      b.scanDir dr dc fuel r c = true := by
  intro j
  induction j with
  | zero =>
    intro r c fuel hfuel hrun hvend hcend
    cases fuel with
    | zero => exact absurd hfuel (by omega)
    | succ f =>
      unfold Board.scanDir
      rw [if_pos (by simpa using hvend), if_pos (by simpa using hcend)]
  | succ j ih =>
    intro r c fuel hfuel hrun hvend hcend
    cases fuel with
    | zero => exact absurd hfuel (by omega)
    | succ f =>
      obtain ⟨hv0, hc0⟩ := hrun 0 (Nat.succ_pos j)
      have hv0' : b.IsValidPosition r c = true := by simpa using hv0
      have hc0' : b.Cells r c = b.getOpponent := by simpa using hc0
      unfold Board.scanDir
      rw [if_pos hv0',
        if_neg (by rw [hc0']; exact opp_ne_cur b hcur),
        if_neg (by rw [hc0']; exact opp_ne_empty b hcur)]
      refine ih (r + dr) (c + dc) f (by omega) ?_ ?_ ?_
      · intro i hi
        have hp1 : r + dr + (i : Int) * dr = r + ((i + 1 : Nat) : Int) * dr := by
          push_cast; ring
        have hp2 : c + dc + (i : Int) * dc = c + ((i + 1 : Nat) : Int) * dc := by
          push_cast; ring
        rw [hp1, hp2]
        exact hrun (i + 1) (by omega)
      · have hp1 : r + dr + (j : Int) * dr = r + ((j + 1 : Nat) : Int) * dr := by
          push_cast; ring
        rw [hp1, show c + dc + (j : Int) * dc = c + ((j + 1 : Nat) : Int) * dc by
          push_cast; ring]
        exact hvend
      · rw [show r + dr + (j : Int) * dr = r + ((j + 1 : Nat) : Int) * dr by
          push_cast; ring,
          show c + dc + (j : Int) * dc = c + ((j + 1 : Nat) : Int) * dc by
          push_cast; ring]
        exact hcend

/-- Each direction offset has both components in `{-1, 0, 1}` and is not
the zero offset. -/
theorem dir_bounds (dr dc : Int) (hd : (dr, dc) ∈ Directions) :
    (dr = -1 ∨ dr = 0 ∨ dr = 1) ∧ (dc = -1 ∨ dc = 0 ∨ dc = 1) ∧
      ¬(dr = 0 ∧ dc = 0) := by
  simp only [Directions, List.mem_cons, List.mem_singleton, Prod.mk.injEq,
    List.not_mem_nil, or_false] at hd
  rcases hd with h | h | h | h | h | h | h | h
  all_goals obtain ⟨rfl, rfl⟩ := h
  all_goals refine ⟨by norm_num, by norm_num, by norm_num⟩

/-- A bracketing endpoint in any of the eight directions lies at walk
index at most 7 when the origin is on the board. -/
theorem k_le_seven (dr dc row col : Int) (k : Nat)
    (hd : (dr, dc) ∈ Directions)
    (ho : 0 ≤ row ∧ row < 8 ∧ 0 ≤ col ∧ col < 8)
    (he : 0 ≤ row + (k : Int) * dr ∧ row + (k : Int) * dr < 8 ∧
      0 ≤ col + (k : Int) * dc ∧ col + (k : Int) * dc < 8) :
    k ≤ 7 := by
  obtain ⟨h1, h2, h3⟩ := dir_bounds dr dc hd
  rcases h1 with ha | ha | ha <;> rcases h2 with hb | hb | hb <;>
    subst ha <;> subst hb <;>
    simp only [mul_neg_one, mul_one, mul_zero, add_zero] at he <;> omega

/-- The per-direction check of `IsValidMove` — adjacent opponent piece
plus a successful scan — is equivalent to the declarative bracketing
property in that direction. -/
theorem dirCheck_iff (b : Board) (row col : Int) (d : Int × Int)
    (hd : d ∈ Directions)
    (hcur : b.CurrentPlayer = Piece.Black ∨ b.CurrentPlayer = Piece.White)
    (ho : b.IsValidPosition row col = true) :
    ((b.IsValidPosition (row + d.1) (col + d.2) = true ∧
        b.Cells (row + d.1) (col + d.2) = b.getOpponent) ∧
      b.scanDir d.1 d.2 8 (row + d.1 + d.1) (col + d.2 + d.2) = true) ↔
      bracketSpec b row col d.1 d.2 := by
  constructor
  · rintro ⟨⟨hv1, hc1⟩, hscan⟩
    obtain ⟨j, hj8, hrun, hvend, hcend⟩ := scanDir_sound b d.1 d.2 8 _ _ hscan
    refine ⟨j + 2, by omega, ?_, ?_, ?_⟩
    · intro i h1i hik
      cases i with
      | zero => omega
      | succ i' =>
        cases i' with
        | zero =>
          rw [show row + ((1 : Nat) : Int) * d.1 = row + d.1 by push_cast; ring,
            show col + ((1 : Nat) : Int) * d.2 = col + d.2 by push_cast; ring]
          exact ⟨hv1, hc1⟩
        | succ i'' =>
          obtain ⟨hvi, hnc, hne⟩ := hrun i'' (by omega)
          rw [show row + ((i'' + 1 + 1 : Nat) : Int) * d.1 =
              row + d.1 + d.1 + (i'' : Int) * d.1 by push_cast; ring,
            show col + ((i'' + 1 + 1 : Nat) : Int) * d.2 =
              col + d.2 + d.2 + (i'' : Int) * d.2 by push_cast; ring]
          exact ⟨hvi, piece_resolve b hcur _ hnc hne⟩
    · rw [show row + ((j + 2 : Nat) : Int) * d.1 =
          row + d.1 + d.1 + (j : Int) * d.1 by push_cast; ring,
        show col + ((j + 2 : Nat) : Int) * d.2 =
          col + d.2 + d.2 + (j : Int) * d.2 by push_cast; ring]
      exact hvend
    · rw [show row + ((j + 2 : Nat) : Int) * d.1 =
          row + d.1 + d.1 + (j : Int) * d.1 by push_cast; ring,
        show col + ((j + 2 : Nat) : Int) * d.2 =
          col + d.2 + d.2 + (j : Int) * d.2 by push_cast; ring]
      exact hcend
  · rintro ⟨k, hk2, hrun, hvend, hcend⟩
    have hadj := hrun 1 le_rfl (by omega)
    have hv1 : b.IsValidPosition (row + d.1) (col + d.2) = true := by
      have := hadj.1
      rwa [show row + ((1 : Nat) : Int) * d.1 = row + d.1 by push_cast; ring,
        show col + ((1 : Nat) : Int) * d.2 = col + d.2 by push_cast; ring] at this
    have hc1 : b.Cells (row + d.1) (col + d.2) = b.getOpponent := by
      have := hadj.2
      rwa [show row + ((1 : Nat) : Int) * d.1 = row + d.1 by push_cast; ring,
        show col + ((1 : Nat) : Int) * d.2 = col + d.2 by push_cast; ring] at this
    refine ⟨⟨hv1, hc1⟩, ?_⟩
    have hk7 : k ≤ 7 :=
      k_le_seven d.1 d.2 row col k (by simpa using hd)
        ((valid_pos_iff b row col).mp ho) ((valid_pos_iff b _ _).mp hvend)
    have hcast : ((k - 2 : Nat) : Int) = (k : Int) - 2 := by omega
    refine scanDir_complete b d.1 d.2 hcur (k - 2) (row + d.1 + d.1)
      (col + d.2 + d.2) 8 (by omega) ?_ ?_ ?_
    · intro i hi
      obtain ⟨hvi, hci⟩ := hrun (i + 2) (by omega) (by omega)
      rw [show row + d.1 + d.1 + (i : Int) * d.1 =
          row + ((i + 2 : Nat) : Int) * d.1 by push_cast; ring,
        show col + d.2 + d.2 + (i : Int) * d.2 =
          col + ((i + 2 : Nat) : Int) * d.2 by push_cast; ring]
      exact ⟨hvi, hci⟩
    · rw [show row + d.1 + d.1 + ((k - 2 : Nat) : Int) * d.1 =
          row + (k : Int) * d.1 by rw [hcast]; ring,
        show col + d.2 + d.2 + ((k - 2 : Nat) : Int) * d.2 =
          col + (k : Int) * d.2 by rw [hcast]; ring]
      exact hvend
    · rw [show row + d.1 + d.1 + ((k - 2 : Nat) : Int) * d.1 =
          row + (k : Int) * d.1 by rw [hcast]; ring,
        show col + d.2 + d.2 + ((k - 2 : Nat) : Int) * d.2 =
          col + (k : Int) * d.2 by rw [hcast]; ring]
      exact hcend

/-- C1.  For a board with a proper current player, `IsValidMove` answers
`false` off-board or on a non-empty cell, and otherwise answers `true`
exactly when some of the 8 directions has an adjacent opponent piece
followed by a contiguous opponent run terminated by a current-player
piece — an empty cell or the edge terminating the run instead disqualifies
the direction, as `bracketSpec` requires the endpoint piece. -/
theorem isValidMove_iff (b : Board) (row col : Int)
    (hcur : b.CurrentPlayer = Piece.Black ∨ b.CurrentPlayer = Piece.White) :
    b.IsValidMove row col = true ↔
      (b.IsValidPosition row col = true ∧ b.Cells row col = Piece.Empty ∧
        ∃ d ∈ Directions, bracketSpec b row col d.1 d.2) := by
  unfold Board.IsValidMove
  by_cases hg : ¬(b.IsValidPosition row col = true) ∨ b.Cells row col ≠ Piece.Empty
  · rw [if_pos hg]
    constructor
    · intro h; exact Bool.noConfusion h
    · rintro ⟨h1, h2, -⟩
      rcases hg with hg | hg
      · exact absurd h1 hg
      · exact absurd h2 hg
  · rw [if_neg hg]
    push_neg at hg
    obtain ⟨ho, hem⟩ := hg
    rw [List.any_eq_true]
    constructor
    · rintro ⟨d, hdmem, hfd⟩
      refine ⟨ho, hem, d, hdmem, ?_⟩
      dsimp only at hfd
      by_cases hadj : ¬(b.IsValidPosition (row + d.1) (col + d.2) = true) ∨
          b.Cells (row + d.1) (col + d.2) ≠ b.getOpponent
      · rw [if_pos hadj] at hfd
        exact Bool.noConfusion hfd
      · rw [if_neg hadj] at hfd
        push_neg at hadj
        exact (dirCheck_iff b row col d hdmem hcur ho).mp ⟨⟨hadj.1, hadj.2⟩, hfd⟩
    · rintro ⟨-, -, d, hdmem, hbs⟩
      obtain ⟨⟨hv1, hc1⟩, hscan⟩ := (dirCheck_iff b row col d hdmem hcur ho).mpr hbs
      refine ⟨d, hdmem, ?_⟩
      dsimp only
      rw [if_neg (by push_neg; exact ⟨hv1, hc1⟩)]
      exact hscan

/-- Witness for C1: the opening move D3 on the initial board. -/
theorem isValidMove_iff_witness :
    (NewBoard.CurrentPlayer = Piece.Black ∨ NewBoard.CurrentPlayer = Piece.White) ∧
      (NewBoard.IsValidMove 2 3 = true ↔
        (NewBoard.IsValidPosition 2 3 = true ∧ NewBoard.Cells 2 3 = Piece.Empty ∧
          ∃ d ∈ Directions, bracketSpec NewBoard 2 3 d.1 d.2)) :=
  ⟨Or.inl rfl, isValidMove_iff NewBoard 2 3 (Or.inl rfl)⟩

/-- Coordinate membership in the 64-cell grid. -/
theorem mem_coords_iff (r c : Int) :
    (r, c) ∈ coords ↔ 0 ≤ r ∧ r < 8 ∧ 0 ≤ c ∧ c < 8 := by
  simp only [coords, Finset.mem_product, Finset.mem_Icc]
  omega

/-- A valid position is a grid coordinate. -/
theorem valid_mem_coords (b : Board) (r c : Int) :
    b.IsValidPosition r c = true ↔ (r, c) ∈ coords := by
  rw [valid_pos_iff, mem_coords_iff]

/-- Updating a grid cell away from `v` to `v` raises the `v` count by 1. -/
theorem countCells_update_self (cells : Int → Int → Piece) (p : Int × Int)
    (hp : p ∈ coords) (v : Piece) (hold : cells p.1 p.2 ≠ v) :
    countCells (updateCell cells p v) v = countCells cells v + 1 := by
  unfold countCells
  have hfil : coords.filter (fun q => updateCell cells p v q.1 q.2 = v) =
      insert p (coords.filter fun q => cells q.1 q.2 = v) := by
    ext q
    simp only [Finset.mem_filter, Finset.mem_insert]
    by_cases hq : q = p
    · subst hq
      rw [show updateCell cells q v q.1 q.2 = v from if_pos ⟨rfl, rfl⟩]
      simp [hp]
    · have hne : ¬(q.1 = p.1 ∧ q.2 = p.2) := by
        rintro ⟨h1, h2⟩
        exact hq (Prod.ext h1 h2)
      rw [show updateCell cells p v q.1 q.2 = cells q.1 q.2 from if_neg hne]
      simp [hq]
  rw [hfil, Finset.card_insert_of_not_mem]
  intro hmem
  exact hold (Finset.mem_filter.mp hmem).2

/-- Updating a grid cell holding `x` to some other piece lowers the `x`
count by 1. -/
theorem countCells_update_old (cells : Int → Int → Piece) (p : Int × Int)
    (hp : p ∈ coords) (v x : Piece) (hx : cells p.1 p.2 = x) (hxv : x ≠ v) :
    countCells (updateCell cells p v) x + 1 = countCells cells x := by
  unfold countCells
  have hfil : coords.filter (fun q => updateCell cells p v q.1 q.2 = x) =
      (coords.filter fun q => cells q.1 q.2 = x).erase p := by
    ext q
    simp only [Finset.mem_filter, Finset.mem_erase]
    by_cases hq : q = p
    · subst hq
      rw [show updateCell cells q v q.1 q.2 = v from if_pos ⟨rfl, rfl⟩]
      constructor
      · rintro ⟨-, hvx⟩
        exact absurd hvx.symm hxv
      · rintro ⟨hne, -⟩
        exact absurd rfl hne
    · have hne : ¬(q.1 = p.1 ∧ q.2 = p.2) := by
        rintro ⟨h1, h2⟩
        exact hq (Prod.ext h1 h2)
      rw [show updateCell cells p v q.1 q.2 = cells q.1 q.2 from if_neg hne]
      simp [hq]
  have hpmem : p ∈ coords.filter (fun q => cells q.1 q.2 = x) :=
    Finset.mem_filter.mpr ⟨hp, hx⟩
  have hpos : 0 < (coords.filter fun q => cells q.1 q.2 = x).card :=
    Finset.card_pos.mpr ⟨p, hpmem⟩
  rw [hfil, Finset.card_erase_of_mem hpmem]
  omega

/-- Updating a cell that holds neither `w` nor is set to `w` leaves the
`w` count unchanged. -/
theorem countCells_update_other (cells : Int → Int → Piece) (p : Int × Int)
    (v w : Piece) (hwv : w ≠ v) (hwx : cells p.1 p.2 ≠ w) :
    countCells (updateCell cells p v) w = countCells cells w := by
  unfold countCells
  congr 1
  ext q
  simp only [Finset.mem_filter]
  by_cases hq : q = p
  · subst hq
    rw [show updateCell cells q v q.1 q.2 = v from if_pos ⟨rfl, rfl⟩]
    constructor
    · rintro ⟨-, hv⟩
      exact absurd hv.symm hwv
    · rintro ⟨-, hx⟩
      exact absurd hx hwx
  · have hne : ¬(q.1 = p.1 ∧ q.2 = p.2) := by
      rintro ⟨h1, h2⟩
      exact hq (Prod.ext h1 h2)
    rw [show updateCell cells p v q.1 q.2 = cells q.1 q.2 from if_neg hne]

/-- The Black and White counts partition the occupied cells. -/
theorem count_partition (cells : Int → Int → Piece) :
    countCells cells Piece.Black + countCells cells Piece.White =
      countNonEmpty cells := by
  unfold countCells countNonEmpty
  have hdis : Disjoint (coords.filter fun q => cells q.1 q.2 = Piece.Black)
      (coords.filter fun q => cells q.1 q.2 = Piece.White) := by
    rw [Finset.disjoint_left]
    intro q h1 h2
    have e1 := (Finset.mem_filter.mp h1).2
    have e2 := (Finset.mem_filter.mp h2).2
    rw [e1] at e2
    exact Piece.noConfusion e2
  rw [← Finset.card_union_of_disjoint hdis]
  congr 1
  ext q
  simp only [Finset.mem_union, Finset.mem_filter]
  cases h : cells q.1 q.2 <;> simp [h]

/-- `setAll` never touches the player or the count fields. -/
theorem setAll_player : ∀ (ps : List (Int × Int)) (b : Board),
    (b.setAll ps).CurrentPlayer = b.CurrentPlayer ∧
      (b.setAll ps).BlackCnt = b.BlackCnt ∧
      (b.setAll ps).WhiteCnt = b.WhiteCnt := by
  intro ps
  induction ps with
  | nil => intro b; exact ⟨rfl, rfl, rfl⟩
  | cons p ps ih =>
    intro b
    unfold Board.setAll at ih ⊢
    rw [List.foldl_cons]
    exact ih { b with Cells := updateCell b.Cells p b.CurrentPlayer }

/-- Flipping a duplicate-free list of on-board opponent cells to the
current player's colour raises the player's grid count and lowers the
opponent's by the list length. -/
theorem setAll_counts : ∀ (ps : List (Int × Int)) (b : Board),
    (b.CurrentPlayer = Piece.Black ∨ b.CurrentPlayer = Piece.White) →
    ps.Nodup →
    (∀ p ∈ ps, p ∈ coords ∧ b.Cells p.1 p.2 = b.getOpponent) →
    countCells (b.setAll ps).Cells b.CurrentPlayer =
      countCells b.Cells b.CurrentPlayer + ps.length ∧
    countCells b.Cells b.getOpponent =
      countCells (b.setAll ps).Cells b.getOpponent + ps.length := by
  intro ps
  induction ps with
  | nil => intro b _ _ _; exact ⟨rfl, rfl⟩
  | cons p ps ih =>
    intro b hcur hnd hall
    obtain ⟨hpc, hpo⟩ := hall p (List.mem_cons_self p ps)
    have hstep : Board.setAll b (p :: ps) =
        Board.setAll { b with Cells := updateCell b.Cells p b.CurrentPlayer } ps := by
      unfold Board.setAll
      rw [List.foldl_cons]
    have htail : ∀ q ∈ ps, q ∈ coords ∧
        ({ b with Cells := updateCell b.Cells p b.CurrentPlayer } : Board).Cells q.1 q.2 =
          ({ b with Cells := updateCell b.Cells p b.CurrentPlayer } : Board).getOpponent := by
      intro q hq
      obtain ⟨hqc, hqo⟩ := hall q (List.mem_cons_of_mem p hq)
      refine ⟨hqc, ?_⟩
      have hqp : ¬(q.1 = p.1 ∧ q.2 = p.2) := by
        rintro ⟨h1, h2⟩
        exact (List.nodup_cons.mp hnd).1 (Prod.ext h1 h2 ▸ hq)
      show updateCell b.Cells p b.CurrentPlayer q.1 q.2 = _
      rw [show updateCell b.Cells p b.CurrentPlayer q.1 q.2 = b.Cells q.1 q.2 from
        if_neg hqp]
      exact hqo
    obtain ⟨ih1, ih2⟩ := ih { b with Cells := updateCell b.Cells p b.CurrentPlayer }
      hcur (List.nodup_cons.mp hnd).2 htail
    have hoppne : b.getOpponent ≠ b.CurrentPlayer := opp_ne_cur b hcur
    have hc1 : countCells (updateCell b.Cells p b.CurrentPlayer) b.CurrentPlayer =
        countCells b.Cells b.CurrentPlayer + 1 :=
      countCells_update_self b.Cells p hpc b.CurrentPlayer (by rw [hpo]; exact hoppne)
    have hc2 : countCells (updateCell b.Cells p b.CurrentPlayer) b.getOpponent + 1 =
        countCells b.Cells b.getOpponent :=
      countCells_update_old b.Cells p hpc b.CurrentPlayer b.getOpponent hpo hoppne
    rw [hstep]
    have hXc : ({ b with Cells := updateCell b.Cells p b.CurrentPlayer } :
        Board).CurrentPlayer = b.CurrentPlayer := rfl
    have hXo : ({ b with Cells := updateCell b.Cells p b.CurrentPlayer } :
        Board).getOpponent = b.getOpponent := rfl
    have hXcells : ({ b with Cells := updateCell b.Cells p b.CurrentPlayer } :
        Board).Cells = updateCell b.Cells p b.CurrentPlayer := rfl
    simp only [hXc, hXo, hXcells] at ih1 ih2
    constructor
    · rw [List.length_cons]
      omega
    · rw [List.length_cons]
      omega

/-- Prepending the walk origin to a shifted ray enumeration extends the
enumeration by one step. -/
theorem range_map_cons (dr dc r c : Int) (m : Nat) :
    (r, c) :: (List.range m).map
        (fun j : Nat => (r + dr + (j : Int) * dr, c + dc + (j : Int) * dc)) =
      (List.range (m + 1)).map
        (fun j : Nat => (r + (j : Int) * dr, c + (j : Int) * dc)) := by
  rw [List.range_succ_eq_map, List.map_cons, List.map_map]
  simp only [Nat.cast_zero, zero_mul, add_zero]
  congr 1
  apply List.map_congr_left
  intro j hj
  simp only [Function.comp_apply, Prod.mk.injEq]
  constructor <;> push_cast <;> ring

/-- The flip-collection loop returns an initial segment of the ray from
its starting cell, every element of which is an on-board cell that is
neither empty nor the current player's. -/
theorem collectRun_shape (b : Board) (dr dc : Int) :
    ∀ (fuel : Nat) (r c : Int),
      (∃ m : Nat, (b.collectRun dr dc fuel r c).1 =
        (List.range m).map (fun j : Nat => (r + (j : Int) * dr, c + (j : Int) * dc))) ∧
      (∀ p ∈ (b.collectRun dr dc fuel r c).1,
        p ∈ coords ∧ b.Cells p.1 p.2 ≠ Piece.Empty ∧
          b.Cells p.1 p.2 ≠ b.CurrentPlayer) := by
  intro fuel
  induction fuel with
  | zero =>
    intro r c
    exact ⟨⟨0, rfl⟩, by intro p hp; simp [Board.collectRun] at hp⟩
  | succ f ih =>
    intro r c
    unfold Board.collectRun
    split_ifs with hv he hc
    · exact ⟨⟨0, rfl⟩, by intro p hp; simp at hp⟩
    · exact ⟨⟨0, rfl⟩, by intro p hp; simp at hp⟩
    · obtain ⟨⟨m, hm⟩, hprops⟩ := ih (r + dr) (c + dc)
      constructor
      · refine ⟨m + 1, ?_⟩
        show (r, c) :: (b.collectRun dr dc f (r + dr) (c + dc)).1 = _
        rw [hm]
        exact range_map_cons dr dc r c m
      · intro p hp
        rcases List.mem_cons.mp hp with rfl | hp'
        · exact ⟨(valid_mem_coords b r c).mp hv, he, hc⟩
        · exact hprops p hp'
    · exact ⟨⟨0, rfl⟩, by intro p hp; simp at hp⟩

/-- No direction is the zero offset. -/
theorem dir_nonzero (d : Int × Int) (hd : d ∈ Directions) :
    ¬(d.1 = 0 ∧ d.2 = 0) := by
  have hd' : (d.1, d.2) ∈ Directions := hd
  exact (dir_bounds d.1 d.2 hd').2.2

/-- One direction of the flip loop preserves the player and the count
fields, flips exactly its reported number of cells from the opponent's
colour to the player's, and flips nothing else. -/
theorem flipDir_counts (b : Board) (row col : Int) (d : Int × Int)
    (hd : d ∈ Directions)
    (hcur : b.CurrentPlayer = Piece.Black ∨ b.CurrentPlayer = Piece.White) :
    (b.flipDir row col d.1 d.2).1.CurrentPlayer = b.CurrentPlayer ∧
      (b.flipDir row col d.1 d.2).1.BlackCnt = b.BlackCnt ∧
      (b.flipDir row col d.1 d.2).1.WhiteCnt = b.WhiteCnt ∧
      countCells (b.flipDir row col d.1 d.2).1.Cells b.CurrentPlayer =
        countCells b.Cells b.CurrentPlayer + (b.flipDir row col d.1 d.2).2 ∧
      countCells b.Cells b.getOpponent =
        countCells (b.flipDir row col d.1 d.2).1.Cells b.getOpponent +
          (b.flipDir row col d.1 d.2).2 := by
  simp only [Board.flipDir]
  split_ifs with hadj hfound
  · obtain ⟨⟨m, hm⟩, hprops⟩ :=
      collectRun_shape b d.1 d.2 8 (row + d.1 + d.1) (col + d.2 + d.2)
    set toFlip := (row + d.1, col + d.2) ::
      (b.collectRun d.1 d.2 8 (row + d.1 + d.1) (col + d.2 + d.2)).1 with htf
    have hshape : toFlip = (List.range (m + 1)).map
        (fun j : Nat =>
          (row + d.1 + (j : Int) * d.1, col + d.2 + (j : Int) * d.2)) := by
      rw [htf, hm]
      exact range_map_cons d.1 d.2 (row + d.1) (col + d.2) m
    have hnz := dir_nonzero d hd
    have hinj : Function.Injective
        (fun j : Nat =>
          (row + d.1 + (j : Int) * d.1, col + d.2 + (j : Int) * d.2)) := by
      intro j1 j2 hj
      simp only [Prod.mk.injEq] at hj
      obtain ⟨h1, h2⟩ := hj
      by_cases hdr : d.1 = 0
      · have hdc : d.2 ≠ 0 := fun h => hnz ⟨hdr, h⟩
        have e2 := add_left_cancel h2
        have := mul_right_cancel₀ hdc e2
        exact_mod_cast this
      · have e1 := add_left_cancel h1
        have := mul_right_cancel₀ hdr e1
        exact_mod_cast this
    have hnd : toFlip.Nodup := by
      rw [hshape]
      exact (List.nodup_range (m + 1)).map hinj
    have hall : ∀ p ∈ toFlip, p ∈ coords ∧ b.Cells p.1 p.2 = b.getOpponent := by
      intro p hp
      rw [htf] at hp
      rcases List.mem_cons.mp hp with rfl | hp'
      · exact ⟨(valid_mem_coords b _ _).mp hadj.1, hadj.2⟩
      · obtain ⟨hc, hne, hnc⟩ := hprops p hp'
        exact ⟨hc, piece_resolve b hcur _ hnc hne⟩
    obtain ⟨hA, hB⟩ := setAll_counts toFlip b hcur hnd hall
    obtain ⟨hP, hBC, hWC⟩ := setAll_player toFlip b
    exact ⟨hP, hBC, hWC, hA, hB⟩
  · exact ⟨rfl, rfl, rfl, rfl, rfl⟩
  · exact ⟨rfl, rfl, rfl, rfl, rfl⟩

/-- Folding the flip step over any sublist of the directions preserves the
player and count fields, and shifts the grid counts by exactly the number
of flips accumulated beyond the incoming accumulator. -/
theorem flipFold_counts (row col : Int) :
    ∀ (ds : List (Int × Int)), (∀ d ∈ ds, d ∈ Directions) →
      ∀ (b : Board) (acc : Nat),
        (b.CurrentPlayer = Piece.Black ∨ b.CurrentPlayer = Piece.White) →
        (ds.foldl (flipStep row col) (b, acc)).1.CurrentPlayer = b.CurrentPlayer ∧
          (ds.foldl (flipStep row col) (b, acc)).1.BlackCnt = b.BlackCnt ∧
          (ds.foldl (flipStep row col) (b, acc)).1.WhiteCnt = b.WhiteCnt ∧
          countCells (ds.foldl (flipStep row col) (b, acc)).1.Cells
              b.CurrentPlayer + acc =
            countCells b.Cells b.CurrentPlayer +
              (ds.foldl (flipStep row col) (b, acc)).2 ∧
          countCells b.Cells b.getOpponent + acc =
            countCells (ds.foldl (flipStep row col) (b, acc)).1.Cells
                b.getOpponent +
              (ds.foldl (flipStep row col) (b, acc)).2 := by
  intro ds
  induction ds with
  | nil =>
    intro _ b acc _
    exact ⟨rfl, rfl, rfl, rfl, rfl⟩
  | cons d ds ih =>
    intro hds b acc hcur
    rw [List.foldl_cons]
    have hstep : flipStep row col (b, acc) d =
        ((b.flipDir row col d.1 d.2).1, acc + (b.flipDir row col d.1 d.2).2) := rfl
    rw [hstep]
    obtain ⟨hP, hBC, hWC, hA, hB⟩ :=
      flipDir_counts b row col d (hds d (List.mem_cons_self d ds)) hcur
    have hcur' : (b.flipDir row col d.1 d.2).1.CurrentPlayer = Piece.Black ∨
        (b.flipDir row col d.1 d.2).1.CurrentPlayer = Piece.White := by
      rw [hP]; exact hcur
    obtain ⟨ih1, ih2, ih3, ih4, ih5⟩ :=
      ih (fun x hx => hds x (List.mem_cons_of_mem d hx))
        (b.flipDir row col d.1 d.2).1 (acc + (b.flipDir row col d.1 d.2).2) hcur'
    have hOo : (b.flipDir row col d.1 d.2).1.getOpponent = b.getOpponent := by
      unfold Board.getOpponent
      rw [hP]
    rw [hP] at ih1 ih4
    rw [hOo] at ih5
    refine ⟨ih1, by rw [ih2, hBC], by rw [ih3, hWC], ?_, ?_⟩
    · omega
    · omega

/-- Field-level description of `flipPieces` in terms of the direction
fold: the grid and player come from the fold result, and the counts are
bumped according to the player's colour. -/
theorem flipPieces_char (b : Board) (row col : Int) :
    (b.flipPieces row col).Cells =
        (Directions.foldl (flipStep row col) (b, 0)).1.Cells ∧
      (b.flipPieces row col).CurrentPlayer =
        (Directions.foldl (flipStep row col) (b, 0)).1.CurrentPlayer ∧
      ((Directions.foldl (flipStep row col) (b, 0)).1.CurrentPlayer =
          Piece.Black →
        (b.flipPieces row col).BlackCnt =
            (Directions.foldl (flipStep row col) (b, 0)).1.BlackCnt +
              ((Directions.foldl (flipStep row col) (b, 0)).2 : Int) + 1 ∧
          (b.flipPieces row col).WhiteCnt =
            (Directions.foldl (flipStep row col) (b, 0)).1.WhiteCnt -
              ((Directions.foldl (flipStep row col) (b, 0)).2 : Int)) ∧
      ((Directions.foldl (flipStep row col) (b, 0)).1.CurrentPlayer ≠
          Piece.Black →
        (b.flipPieces row col).WhiteCnt =
            (Directions.foldl (flipStep row col) (b, 0)).1.WhiteCnt +
              ((Directions.foldl (flipStep row col) (b, 0)).2 : Int) + 1 ∧
          (b.flipPieces row col).BlackCnt =
            (Directions.foldl (flipStep row col) (b, 0)).1.BlackCnt -
              ((Directions.foldl (flipStep row col) (b, 0)).2 : Int)) := by
  simp only [Board.flipPieces]
  split_ifs with hc
  · exact ⟨rfl, rfl, fun _ => ⟨rfl, rfl⟩, fun h => absurd hc h⟩
  · exact ⟨rfl, rfl, fun h => absurd h hc, fun _ => ⟨rfl, rfl⟩⟩

/-- A move accepted by `IsValidMove` targets an on-board empty cell. -/
theorem isValidMove_pos (b : Board) (row col : Int)
    (h : b.IsValidMove row col = true) :
    b.IsValidPosition row col = true ∧ b.Cells row col = Piece.Empty := by
  unfold Board.IsValidMove at h
  by_cases hg : ¬(b.IsValidPosition row col = true) ∨ b.Cells row col ≠ Piece.Empty
  · rw [if_pos hg] at h
    exact Bool.noConfusion h
  · push_neg at hg
    exact hg

/-- C2.  On a board whose counts match the grid (and whose current player
is proper), every successful `MakeMove` raises the combined count by
exactly one, and both counts again equal the number of matching cells in
the grid — so their sum is the number of occupied cells. -/
theorem makeMove_counts (b : Board) (row col : Int)
    (hcur : b.CurrentPlayer = Piece.Black ∨ b.CurrentPlayer = Piece.White)
    (hb : b.BlackCnt = (countCells b.Cells Piece.Black : Int))
    (hw : b.WhiteCnt = (countCells b.Cells Piece.White : Int))
    (hmk : (b.MakeMove row col).1 = true) :
    (b.MakeMove row col).2.BlackCnt + (b.MakeMove row col).2.WhiteCnt =
        b.BlackCnt + b.WhiteCnt + 1 ∧
      (b.MakeMove row col).2.BlackCnt =
        (countCells (b.MakeMove row col).2.Cells Piece.Black : Int) ∧
      (b.MakeMove row col).2.WhiteCnt =
        (countCells (b.MakeMove row col).2.Cells Piece.White : Int) ∧
      (b.MakeMove row col).2.BlackCnt + (b.MakeMove row col).2.WhiteCnt =
        (countNonEmpty (b.MakeMove row col).2.Cells : Int) := by
  have hval : b.IsValidMove row col = true := by
    by_contra hN
    unfold Board.MakeMove at hmk
    rw [if_neg hN] at hmk
    exact Bool.noConfusion hmk
  obtain ⟨hpos, hemp⟩ := isValidMove_pos b row col hval
  have hmmEq : (b.MakeMove row col).2 =
      { ({ b with Cells := updateCell b.Cells (row, col) b.CurrentPlayer } :
            Board).flipPieces row col with
        CurrentPlayer :=
          (({ b with Cells := updateCell b.Cells (row, col) b.CurrentPlayer } :
              Board).flipPieces row col).getOpponent } := by
    unfold Board.MakeMove
    rw [if_pos hval]
  rw [hmmEq]
  set B1 : Board :=
    { b with Cells := updateCell b.Cells (row, col) b.CurrentPlayer } with hB1def
  set BF : Board := B1.flipPieces row col with hBFdef
  have hfinB : ({ BF with CurrentPlayer := BF.getOpponent } : Board).BlackCnt =
      BF.BlackCnt := rfl
  have hfinW : ({ BF with CurrentPlayer := BF.getOpponent } : Board).WhiteCnt =
      BF.WhiteCnt := rfl
  have hfinC : ({ BF with CurrentPlayer := BF.getOpponent } : Board).Cells =
      BF.Cells := rfl
  rw [hfinB, hfinW, hfinC]
  have hB1c : B1.CurrentPlayer = b.CurrentPlayer := rfl
  have hB1o : B1.getOpponent = b.getOpponent := rfl
  have hB1cells : B1.Cells = updateCell b.Cells (row, col) b.CurrentPlayer := rfl
  have hB1B : B1.BlackCnt = b.BlackCnt := rfl
  have hB1W : B1.WhiteCnt = b.WhiteCnt := rfl
  have hpco : (row, col) ∈ coords := (valid_mem_coords b row col).mp hpos
  have hcne : Piece.Empty ≠ b.CurrentPlayer := by
    rcases hcur with h | h <;> rw [h] <;> decide
  have hplaceC : countCells (updateCell b.Cells (row, col) b.CurrentPlayer)
      b.CurrentPlayer = countCells b.Cells b.CurrentPlayer + 1 := by
    refine countCells_update_self b.Cells (row, col) hpco b.CurrentPlayer ?_
    show b.Cells row col ≠ b.CurrentPlayer
    rw [hemp]
    exact hcne
  have hplaceO : countCells (updateCell b.Cells (row, col) b.CurrentPlayer)
      b.getOpponent = countCells b.Cells b.getOpponent := by
    refine countCells_update_other b.Cells (row, col) b.CurrentPlayer
      b.getOpponent (opp_ne_cur b hcur) ?_
    show b.Cells row col ≠ b.getOpponent
    rw [hemp]
    exact (opp_ne_empty b hcur).symm
  obtain ⟨hFP, hFB, hFW, hFc, hFo⟩ :=
    flipFold_counts row col Directions (fun d hd => hd) B1 0
      (by rw [hB1c]; exact hcur)
  obtain ⟨hPCc, hPCp, hPCblack, hPCwhite⟩ := flipPieces_char B1 row col
  rw [hB1c] at hFP hFc
  rw [hB1o] at hFo
  rw [hB1cells] at hFc hFo
  rw [hB1B] at hFB
  rw [hB1W] at hFW
  rw [← hBFdef] at hPCc hPCp hPCblack hPCwhite
  have hpart := count_partition BF.Cells
  rcases hcur with hcb | hcw
  · have hresb : (Directions.foldl (flipStep row col) (B1, 0)).1.CurrentPlayer =
        Piece.Black := by rw [hFP, hcb]
    obtain ⟨hKB, hKW⟩ := hPCblack hresb
    rw [hcb] at hFc
    have hoppw : b.getOpponent = Piece.White := by
      unfold Board.getOpponent
      rw [hcb]
      decide
    rw [hoppw] at hFo hplaceO
    rw [hcb] at hplaceC
    have hCB : countCells BF.Cells Piece.Black =
        countCells (Directions.foldl (flipStep row col) (B1, 0)).1.Cells
          Piece.Black := by rw [hPCc]
    have hCW : countCells BF.Cells Piece.White =
        countCells (Directions.foldl (flipStep row col) (B1, 0)).1.Cells
          Piece.White := by rw [hPCc]
    refine ⟨?_, ?_, ?_, ?_⟩
    · rw [hKB, hKW, hFB, hFW]
      ring
    · rw [hKB, hFB, hb]
      rw [hCB]
      omega
    · rw [hKW, hFW, hw]
      rw [hCW]
      omega
    · rw [hKB, hKW, hFB, hFW, hb, hw]
      omega
  · have hresb : (Directions.foldl (flipStep row col) (B1, 0)).1.CurrentPlayer ≠
        Piece.Black := by
      rw [hFP, hcw]
      decide
    obtain ⟨hKW, hKB⟩ := hPCwhite hresb
    rw [hcw] at hFc
    have hoppb : b.getOpponent = Piece.Black := by
      unfold Board.getOpponent
      rw [hcw]
      decide
    rw [hoppb] at hFo hplaceO
    rw [hcw] at hplaceC
    have hCB : countCells BF.Cells Piece.Black =
        countCells (Directions.foldl (flipStep row col) (B1, 0)).1.Cells
          Piece.Black := by rw [hPCc]
    have hCW : countCells BF.Cells Piece.White =
        countCells (Directions.foldl (flipStep row col) (B1, 0)).1.Cells
          Piece.White := by rw [hPCc]
    refine ⟨?_, ?_, ?_, ?_⟩
    · rw [hKB, hKW, hFB, hFW]
      ring
    · rw [hKB, hFB, hb]
      rw [hCB]
      omega
    · rw [hKW, hFW, hw]
      rw [hCW]
      omega
    · rw [hKB, hKW, hFB, hFW, hb, hw]
      omega

/-- Witness for C2: the opening move D3 from the initial board. -/
theorem makeMove_counts_witness :
    ((NewBoard.CurrentPlayer = Piece.Black ∨ NewBoard.CurrentPlayer = Piece.White) ∧
      NewBoard.BlackCnt = (countCells NewBoard.Cells Piece.Black : Int) ∧
      NewBoard.WhiteCnt = (countCells NewBoard.Cells Piece.White : Int) ∧
      (NewBoard.MakeMove 2 3).1 = true) ∧
      (NewBoard.MakeMove 2 3).2.BlackCnt + (NewBoard.MakeMove 2 3).2.WhiteCnt =
          NewBoard.BlackCnt + NewBoard.WhiteCnt + 1 ∧
        (NewBoard.MakeMove 2 3).2.BlackCnt =
          (countCells (NewBoard.MakeMove 2 3).2.Cells Piece.Black : Int) ∧
        (NewBoard.MakeMove 2 3).2.WhiteCnt =
          (countCells (NewBoard.MakeMove 2 3).2.Cells Piece.White : Int) ∧
        (NewBoard.MakeMove 2 3).2.BlackCnt + (NewBoard.MakeMove 2 3).2.WhiteCnt =
          (countNonEmpty (NewBoard.MakeMove 2 3).2.Cells : Int) :=
  ⟨⟨Or.inl rfl, by decide, by decide, by decide⟩,
   makeMove_counts NewBoard 2 3 (Or.inl rfl) (by decide) (by decide) (by decide)⟩

end Othello
